import Mathlib

/-!
Shallow embedding of the vendor registry and routing subsystem of the
openai-proxy gateway (Go sources: internal/vendor/vendor.go and manage.go,
internal/handler/handler.go, internal/config/config.go), together with
theorems settling the specification claims about it.

Modelling conventions:
- Go strings become Lean `String`; Go slices become `List`.
- Go maps become association lists with overwrite-insert and first-match
  lookup; iteration order of a Go map is a parameter of the model (the list
  order), since the source relies on unspecified map iteration.
- Network I/O is replaced by an explicit outcome datatype describing what
  the network and the JSON decoder produced; each error exit of the Go
  function corresponds to one constructor.
- `time.Time` becomes `Nat` (an instant on a discrete clock);
  `t.Before(u)` becomes `t < u`; one hour is the constant `hourTTL`.
- `json.Number` prices and the parsed SiliconFlow balance become exact
  rationals `ℚ` (the numeric value denoted by the decimal string);
  `strconv.ParseFloat` failure is modelled by `Option`.
- `rand.Intn n` becomes reduction `r % n` of an arbitrary natural draw
  `r`, which ranges over exactly the values `Intn` can return.
-/

namespace OpenAIProxy

/-- Character-list infix test: Go `strings.Contains s pat`, written as a
structurally recursive Boolean function so that it evaluates by `decide`. -/
def charsContains (l pat : List Char) : Bool :=
  pat.isPrefixOf l ||
    (match l with
     | [] => false
     | _ :: rest => charsContains rest pat)

/-- Go `strings.Contains s pat`. -/
def strContains (s pat : String) : Bool :=
  charsContains s.toList pat.toList

/-- Go `strings.ToLower`, as a character list. -/
def strToLowerChars (s : String) : List Char :=
  s.toList.map Char.toLower

/-- Vendor descriptor from internal/config/config.go (`config.Vendor`). -/
structure VendorConf where
  name : String
  host : String
  hideModels : Bool
  key : String
  keys : List String
  defaultModel : String
deriving Repr, DecidableEq

/-- Vendor dialect from vendor.go (`VendorType`). -/
inductive VendorType where
  | openai
  | siliconflow
  | openrouter
deriving Repr, DecidableEq

/-- vendor.go `(v *Vender) GetVendorType`: classify by substring of the
lower-cased host. -/
def GetVendorType (conf : VendorConf) : VendorType :=
  let host := strToLowerChars conf.host
  if charsContains host "siliconflow".toList then .siliconflow
  else if charsContains host "openrouter".toList then .openrouter
  else .openai

/-- Error exits of a key-validation probe (`checkOpenAIKey` /
`checkSiliconFlowKey` returning a non-nil error). -/
inductive CheckError where
  | reqCreation
  | transport
  | parse
  | parseBalance
deriving Repr, DecidableEq

/-- What the network and decoder produced for one SiliconFlow user-info
probe. `status` is the HTTP status code; `body` is the decode outcome. -/
inductive SFBody where
  /-- json.Unmarshal fails on the body. -/
  | malformed
  /-- Decoded envelope: `Status` (bool), `Data.Status` (string), and the
  result of `strconv.ParseFloat` on `Data.TotalBalance` (`none` models an
  unparsable balance string). -/
  | info (status : Bool) (dataStatus : String) (totalBalance : Option ℚ)
deriving Repr, DecidableEq

/-- Outcome of the HTTP exchange for one SiliconFlow probe. -/
inductive SFOutcome where
  /-- http.NewRequestWithContext returns an error. -/
  | reqError
  /-- client.Do returns an error. -/
  | transportError
  /-- A response arrived with this status code and body. -/
  | response (status : Nat) (body : SFBody)
deriving Repr, DecidableEq

/-- vendor.go `(v *Vender) checkSiliconFlowKey`: `.ok b` models the Go
return `(b, nil)`; `.error e` models a non-nil error return. -/
def checkSiliconFlowKey (o : SFOutcome) : Except CheckError Bool :=
  match o with
  | .reqError => .error .reqCreation
  | .transportError => .error .transport
  | .response status body =>
    if status ≠ 200 then .ok false
    else
      match body with
      | .malformed => .error .parse
      | .info envStatus dataStatus totalBalance =>
        if !envStatus || dataStatus ≠ "normal" then .ok false
        else
          match totalBalance with
          | none => .error .parseBalance
          | some b => if b ≤ 0 then .ok false else .ok true

/-- vendor.go `(v *Vender) RefreshValidKeys`, with the per-key probe
abstracted as an oracle `check` (`.ok b` = verdict `b`, `.error _` = probe
error, which skips the key for this cycle). Returns the new valid-key
list. The main key joins `keysToCheck` only when non-empty; empty pool
keys are skipped before any probe. -/
def RefreshValidKeys (conf : VendorConf)
    (check : String → Except CheckError Bool) : List String :=
  let keysToCheck := (if conf.key ≠ "" then [conf.key] else []) ++ conf.keys
  keysToCheck.filter fun k =>
    if k = "" then false
    else
      match check k with
      | .ok true => true
      | _ => false

/-- vendor.go `(v *Vender) GetKey`. `validKeys` is the vendor's current
valid-key list; `r` is the draw of the shared random source, reduced
modulo the list length exactly as `rand.Intn` bounds it. -/
def GetKey (conf : VendorConf) (validKeys : List String) (r : Nat) : String :=
  if conf.keys.length = 0 then conf.key
  else if h : validKeys.length = 0 then conf.key
  else validKeys.get ⟨r % validKeys.length, Nat.mod_lt r (Nat.pos_of_ne_zero h)⟩

/-- vendor.go `ModelObjectPricing`: the prices denoted by the two
json.Number fields, as exact rationals. -/
structure ModelObjectPricing where
  prompt : ℚ
  completion : ℚ
deriving Repr, DecidableEq

/-- vendor.go `ModelObject`. -/
structure ModelObject where
  id : String
  object : String
  created : Int
  ownedBy : String
  name : String
  description : String
  pricing : Option ModelObjectPricing
deriving Repr, DecidableEq

/-- vendor.go `ModelList`. -/
structure ModelList where
  object : String
  data : List ModelObject
deriving Repr, DecidableEq

/-- vendor.go `ModelCacheItem`: a cached list with its expiry instant. -/
structure ModelCacheItem where
  models : ModelList
  expiresAt : Nat
deriving Repr, DecidableEq

/-- The vendor's `modelsCache` map (cache key → item). -/
def ModelsCache := List (String × ModelCacheItem)

/-- Go map read `m[k]`. -/
def cacheLookup (c : ModelsCache) (k : String) : Option ModelCacheItem :=
  (c.find? fun p => p.1 == k).map Prod.snd

/-- Go map write `m[k] = item` (overwrite). -/
def cacheInsert (c : ModelsCache) (k : String) (item : ModelCacheItem) :
    ModelsCache :=
  (k, item) :: c.filter fun p => p.1 ≠ k

/-- One hour of the model clock (the Models cache TTL). -/
def hourTTL : Nat := 3600

/-- Error exits of `(v *Vender) Models`. -/
inductive ModelsError where
  | reqCreation
  | transport
  | readBody
  | badStatus (code : Nat)
  | parse
deriving Repr, DecidableEq

/-- What the network and decoder produce for one `/v1/models` fetch, in
the order the Go code can fail: request creation, transport, body read,
then a response whose body decodes (`some`) or not (`none`). -/
inductive FetchOutcome where
  | reqError
  | transportError
  | readError
  | response (status : Nat) (parsed : Option ModelList)
deriving Repr, DecidableEq

/-- The OpenRouter price filter predicate inside `Models`: keep exactly
the models that carry pricing with prompt and completion both zero. -/
def zeroPriced (m : ModelObject) : Bool :=
  match m.pricing with
  | some p => p.prompt == 0 && p.completion == 0
  | none => false

/-- Result of one `Models` call: the returned value, the cache afterwards,
and whether an upstream fetch was attempted (false exactly on the
unexpired-cache-hit path). -/
structure ModelsOutput where
  result : Except ModelsError ModelList
  cache : ModelsCache
  fetchAttempted : Bool

/-- The cache key `fmt.Sprintf("%s:%s", name, host)` of `Models`. -/
def modelsCacheKey (conf : VendorConf) : String :=
  conf.name ++ ":" ++ conf.host

/-- vendor.go `(v *Vender) Models`: cache consultation, fetch, status and
decode checks, OpenRouter zero-price filtering, cache write. `now` is the
current instant, `cache` the vendor's cache before the call, `fetch` the
outcome the network would produce if consulted. -/
def Models (conf : VendorConf) (cache : ModelsCache) (now : Nat)
    (fetch : FetchOutcome) : ModelsOutput :=
  let cacheKey := modelsCacheKey conf
  match cacheLookup cache cacheKey with
  | some item =>
    if now < item.expiresAt then
      ⟨.ok item.models, cache, false⟩
    else
      modelsFetch conf cache now fetch
  | none => modelsFetch conf cache now fetch
where
  /-- The part of `Models` below the cache consultation. -/
  modelsFetch (conf : VendorConf) (cache : ModelsCache) (now : Nat)
      (fetch : FetchOutcome) : ModelsOutput :=
    match fetch with
    | .reqError => ⟨.error .reqCreation, cache, true⟩
    | .transportError => ⟨.error .transport, cache, true⟩
    | .readError => ⟨.error .readBody, cache, true⟩
    | .response status parsed =>
      if status ≠ 200 then ⟨.error (.badStatus status), cache, true⟩
      else
        match parsed with
        | none => ⟨.error .parse, cache, true⟩
        | some ml =>
          let ml :=
            if GetVendorType conf = .openrouter then
              { ml with data := ml.data.filter zeroPriced }
            else ml
          ⟨.ok ml,
           cacheInsert cache (modelsCacheKey conf) ⟨ml, now + hourTTL⟩,
           true⟩

/-- The parts of an `http.Request` that `modifyProxyRequest` reads or
writes: the Authorization header value (`""` models an absent header, as
Go `Header.Get` returns), the Host header value, the request Host field,
and the URL authority. -/
structure ProxyRequest where
  authHeader : String
  hostHeader : String
  reqHost : String
  urlHost : String
deriving Repr, DecidableEq

/-- vendor.go `(v *Vender) modifyProxyRequest` (the version without path
adjustment). `targetHost` is the Host component of the parsed vendor URL;
`validKeys` and `r` feed the inner `GetKey` call. -/
def modifyProxyRequest (conf : VendorConf) (validKeys : List String)
    (r : Nat) (targetHost : String) (req : ProxyRequest) : ProxyRequest :=
  let req :=
    if req.authHeader = "" || strContains req.authHeader "null" then
      { req with
          authHeader := "Bearer " ++ GetKey conf validKeys r }
    else req
  { req with
      reqHost := targetHost
      urlHost := targetHost
      hostHeader := targetHost }

/-- One compiled model rule of `VendorManager.ModelsMap`: the compiled
regular expression is abstracted as its matcher function (field regexMatch), paired with the
target vendor name. -/
structure CompiledRule where
  regexMatch : String → Bool
  vendor : String

/-- manage.go `(m *VendorManager) GetVendorForModel`: first rule (in the
map's iteration order, modelled as the list order) whose pattern matches
wins; otherwise the configured default vendor name. -/
def GetVendorForModel (rules : List CompiledRule) (defaultVendor : String)
    (modelName : String) : String :=
  match rules with
  | [] => defaultVendor
  | r :: rest =>
    if r.regexMatch modelName then r.vendor
    else GetVendorForModel rest defaultVendor modelName

/-- Go map read on a name-keyed association list. -/
def assocLookup {A : Type} (l : List (String × A)) (k : String) : Option A :=
  (l.find? fun p => p.1 == k).map Prod.snd

/-- Go map write `m[k] = v` (overwrite) on a name-keyed association list. -/
def assocInsert {A : Type} (l : List (String × A)) (k : String) (v : A) :
    List (String × A) :=
  (k, v) :: l.filter fun p => p.1 ≠ k

/-- The manager state the lookup operations read: the name→Vendor map, the
name→proxy map, the configured default-vendor name, and the default
Vendor/proxy pair. Vendor and proxy instances are abstract types `V` and
`P` so that instance identity is plain equality. -/
structure VendorManager (V P : Type) where
  vendors : List (String × V)
  proxies : List (String × P)
  defaultVendorName : String
  defaultVendor : V
  defaultProxy : P

/-- manage.go `(m *VendorManager) GetVendor`: empty name resolves to the
configured default-vendor name; a name absent from the vendor map resolves
to the default Vendor instance. Total, never an error. -/
def GetVendor {V P : Type} (m : VendorManager V P) (name : String) : V :=
  let name := if name = "" then m.defaultVendorName else name
  match assocLookup m.vendors name with
  | some v => v
  | none => m.defaultVendor

/-- manage.go `(m *VendorManager) GetProxyForVendor`: same resolution over
the proxy map, with the default proxy as terminal fallback. -/
def GetProxyForVendor {V P : Type} (m : VendorManager V P)
    (vendorName : String) : P :=
  let vendorName :=
    if vendorName = "" then m.defaultVendorName else vendorName
  match assocLookup m.proxies vendorName with
  | some p => p
  | none => m.defaultProxy

/-- manage.go `Initialize`, vendor-map/proxy-map construction loop:
for each configured vendor the Vendor instance (modelled by its
configuration) is stored in the vendor map unconditionally, then the
reverse proxy is built; when `ReverseProxy` fails — exactly when
`url.Parse` on the host fails, modelled by the oracle `parseURL` returning
`none` — the loop continues without a proxy-map entry. The proxy instance
is modelled by the parsed URL value. -/
def initializeStep (parseURL : String → Option String)
    (st : List (String × VendorConf) × List (String × String))
    (v : VendorConf) :
    List (String × VendorConf) × List (String × String) :=
  let vendors := assocInsert st.1 v.name v
  match parseURL v.host with
  | none => (vendors, st.2)
  | some u => (vendors, assocInsert st.2 v.name u)

def initializeMaps (confs : List VendorConf)
    (parseURL : String → Option String) :
    List (String × VendorConf) × List (String × String) :=
  confs.foldl (initializeStep parseURL) ([], [])

/-- What the aggregation loop in handler.go `Models` observes of one
vendor: its hide-models flag and the outcome of its `models()` call. -/
structure VendorView where
  hideModels : Bool
  modelsResult : Except ModelsError ModelList

/-- The loop accumulator of handler.go `Models` (aggregated path):
`allModels`, the `modelMap` duplicate tracker (as the list of IDs already
present), and `successCount`. -/
structure AggState where
  allModels : List ModelObject
  seen : List String
  successCount : Nat
deriving Repr

/-- The inner per-model loop of handler.go `Models`: append each model
whose ID is not yet in `modelMap`, recording the ID. -/
def addModels (st : AggState) (data : List ModelObject) : AggState :=
  data.foldl
    (fun st m =>
      if st.seen.contains m.id then st
      else { st with
               allModels := st.allModels ++ [m]
               seen := st.seen ++ [m.id] })
    st

/-- The per-vendor step of handler.go `Models`: skip hidden vendors, skip
vendors whose `models()` call errors, otherwise merge and count the
success. -/
def aggStep (st : AggState) (vv : VendorView) : AggState :=
  if vv.hideModels then st
  else
    match vv.modelsResult with
    | .error _ => st
    | .ok ml => { addModels st ml.data with
                    successCount := (addModels st ml.data).successCount + 1 }

/-- The whole aggregation loop of handler.go `Models` over the vendors in
iteration order. -/
def aggregateModels (vendors : List VendorView) : AggState :=
  vendors.foldl aggStep ⟨[], [], 0⟩

/-- config.go `Model` (a configured model rule). -/
structure ModelRule where
  name : String
  regex : String
  slug : String
  vendor : String
deriving Repr, DecidableEq

/-- handler.go `fallbackToStaticModels`: the static list rendered from the
configured model rules. -/
def fallbackToStaticModels (rules : List ModelRule) : ModelList :=
  ⟨"list",
   rules.map fun m => ⟨m.name, "model", 1686935002, "organization-owner", "", "", none⟩⟩

/-- Which branch handler.go `Models` (aggregated path) answers from. -/
inductive ModelsResponse where
  | fromVendors (l : ModelList)
  | fromStatic (l : ModelList)
deriving Repr, DecidableEq

/-- handler.go `Models`, aggregated path (no vendor filter): run the
aggregation loop, then delegate to the static fallback exactly when no
vendor succeeded and the merged list is empty. -/
def modelsAggregated (vendors : List VendorView) (rules : List ModelRule) :
    ModelsResponse :=
  let st := aggregateModels vendors
  if st.successCount = 0 ∧ st.allModels = [] then
    .fromStatic (fallbackToStaticModels rules)
  else
    .fromVendors ⟨"list", st.allModels⟩

/-- Spec-side merge for the refinement comparison in the aggregation
claim: de-duplicate a model list by ID, first occurrence winning. -/
def dedupFirstById (ms : List ModelObject) : List ModelObject :=
  ms.foldl
    (fun acc m =>
      if acc.any (fun m2 => m2.id == m.id) then acc else acc ++ [m])
    []

/-- The vendor data the aggregation actually merges: the model lists of
the non-hidden vendors whose `models()` call succeeded, in order. -/
def visibleOkData (vendors : List VendorView) : List ModelObject :=
  (vendors.filterMap fun vv =>
    if vv.hideModels then none
    else match vv.modelsResult with
         | .ok ml => some ml.data
         | .error _ => none).flatten

/-! ## Theorems -/

/-- C1: for every vendor, if the configured key pool is empty, `GetKey`
returns the primary key regardless of the valid-key set; if the pool and
the valid-key set are both non-empty, `GetKey` returns a member of the
valid-key set (and every member is selected by some random draw); if the
pool is non-empty and the valid-key set is empty, `GetKey` falls back to
the primary key rather than failing. -/
theorem GetKey_pool_spec (conf : VendorConf) (validKeys : List String)
    (r : Nat) :
    (conf.keys = [] → GetKey conf validKeys r = conf.key) ∧
    (conf.keys ≠ [] → validKeys ≠ [] →
      GetKey conf validKeys r ∈ validKeys ∧
      ∀ k ∈ validKeys, ∃ r2, GetKey conf validKeys r2 = k) ∧
    (conf.keys ≠ [] → validKeys = [] → GetKey conf validKeys r = conf.key) := by
  refine ⟨?_, ?_, ?_⟩
  · intro h
    simp [GetKey, h]
  · intro hpool hvalid
    constructor
    · have hkeys : ¬ conf.keys.length = 0 := by
        simpa [List.length_eq_zero] using hpool
      have hv : ¬ validKeys.length = 0 := by
        simpa [List.length_eq_zero] using hvalid
      simp only [GetKey, if_neg hkeys, dif_neg hv]
      exact validKeys.get_mem _ _
    · intro k hk
      obtain ⟨i, hi⟩ := List.mem_iff_get.mp hk
      refine ⟨i, ?_⟩
      have hkeys : ¬ conf.keys.length = 0 := by
        simpa [List.length_eq_zero] using hpool
      have hv : ¬ validKeys.length = 0 := by
        simpa [List.length_eq_zero] using hvalid
      simp only [GetKey, if_neg hkeys, dif_neg hv]
      rw [← hi]
      congr 1
      exact Fin.ext (Nat.mod_eq_of_lt i.isLt)
  · intro hpool hvalid
    have hkeys : ¬ conf.keys.length = 0 := by
      simpa [List.length_eq_zero] using hpool
    simp [GetKey, if_neg hkeys, hvalid]

/-- Witness for C1 at a concrete vendor with a two-key pool and a
singleton valid-key set. -/
theorem GetKey_pool_spec_witness :
    GetKey ⟨"v", "https://h.test", false, "pk", ["k1", "k2"], ""⟩ ["k1"] 5
      ∈ ["k1"] :=
  ((GetKey_pool_spec ⟨"v", "https://h.test", false, "pk", ["k1", "k2"], ""⟩
      ["k1"] 5).2.1 (by decide) (by decide)).1

/-- C10: `RefreshValidKeys` never adds an empty-string key to the
valid-key set, and the set contains only configured keys (primary or
pool); consequently, when the configured primary key is empty and the pool
is empty or yields no valid keys, `GetKey` returns the empty string rather
than failing. -/
theorem RefreshValidKeys_no_empty_key (conf : VendorConf)
    (check : String → Except CheckError Bool) (r : Nat) :
    "" ∉ RefreshValidKeys conf check ∧
    (∀ k ∈ RefreshValidKeys conf check, k = conf.key ∨ k ∈ conf.keys) ∧
    (conf.key = "" →
      (conf.keys = [] ∨ RefreshValidKeys conf check = []) →
      GetKey conf (RefreshValidKeys conf check) r = "") := by
  refine ⟨?_, ?_, ?_⟩
  · intro hmem
    have := (List.mem_filter.mp hmem).2
    simp at this
  · intro k hk
    have hmem := (List.mem_filter.mp hk).1
    rcases List.mem_append.mp hmem with h | h
    · by_cases hke : conf.key ≠ ""
      · simp [hke] at h
        exact Or.inl h
      · simp [hke] at h
    · exact Or.inr h
  · intro hkey hcase
    rcases hcase with h | h
    · have : conf.keys.length = 0 := by simp [h]
      simp [GetKey, this, hkey]
    · rw [h]
      by_cases hk : conf.keys.length = 0
      · simp [GetKey, hk, hkey]
      · simp [GetKey, hk, hkey]

/-- Witness for C10 at a concrete vendor whose primary key is empty and
whose two pool keys both fail validation. -/
theorem RefreshValidKeys_no_empty_key_witness :
    GetKey ⟨"v", "https://h.test", false, "", ["k1", "k2"], ""⟩
      (RefreshValidKeys ⟨"v", "https://h.test", false, "", ["k1", "k2"], ""⟩
        (fun _ => .ok false)) 7 = "" :=
  (RefreshValidKeys_no_empty_key
      ⟨"v", "https://h.test", false, "", ["k1", "k2"], ""⟩
      (fun _ => .ok false) 7).2.2 rfl (Or.inr (by decide))

/-- C8: the SiliconFlow key probe returns valid exactly when the HTTP
status is 200, the envelope status is true, the account status equals
"normal", and the parsed balance is strictly positive; a non-200 status is
invalid without error; malformed JSON, and an unparsable balance on an
otherwise normal account, are errors rather than silent invalidity. -/
theorem checkSiliconFlowKey_spec (o : SFOutcome) :
    (checkSiliconFlowKey o = .ok true ↔
      ∃ b : ℚ, o = .response 200 (.info true "normal" (some b)) ∧ 0 < b) ∧
    (∀ status body, status ≠ 200 →
      checkSiliconFlowKey (.response status body) = .ok false) ∧
    (checkSiliconFlowKey (.response 200 .malformed) = .error .parse) ∧
    (checkSiliconFlowKey (.response 200 (.info true "normal" none)) =
      .error .parseBalance) := by
  refine ⟨?_, ?_, ?_, ?_⟩
  · constructor
    · intro h
      match o with
      | .reqError => simp [checkSiliconFlowKey] at h
      | .transportError => simp [checkSiliconFlowKey] at h
      | .response status body =>
        by_cases hs : status = 200
        · subst hs
          match body with
          | .malformed => simp [checkSiliconFlowKey] at h
          | .info false dataStatus totalBalance =>
            simp [checkSiliconFlowKey] at h
          | .info true dataStatus totalBalance =>
            by_cases hds : dataStatus = "normal"
            · subst hds
              match totalBalance with
              | none => simp [checkSiliconFlowKey] at h
              | some b =>
                by_cases hb : b ≤ 0
                · simp [checkSiliconFlowKey, hb] at h
                · exact ⟨b, rfl, lt_of_not_le hb⟩
            · simp [checkSiliconFlowKey, hds] at h
        · simp [checkSiliconFlowKey, hs] at h
    · rintro ⟨b, rfl, hb⟩
      simp [checkSiliconFlowKey, not_le.mpr hb]
  · intro status body hs
    simp [checkSiliconFlowKey, hs]
  · simp [checkSiliconFlowKey]
  · simp [checkSiliconFlowKey]

/-- Witness for C8: the probe validates a 200 response with a normal
account and balance 5, and rejects a 401 response without error. -/
theorem checkSiliconFlowKey_spec_witness :
    checkSiliconFlowKey (.response 200 (.info true "normal" (some 5))) =
        .ok true ∧
      checkSiliconFlowKey (.response 401 .malformed) = .ok false :=
  ⟨((checkSiliconFlowKey_spec
        (.response 200 (.info true "normal" (some 5)))).1).mpr
      ⟨5, rfl, by norm_num⟩,
   (checkSiliconFlowKey_spec .reqError).2.1 401 .malformed (by decide)⟩

/-- C6: the request-rewrite step replaces the Authorization header with
"Bearer " and the selected key exactly when the inbound header is absent
(empty) or contains the literal substring "null"; in every other case the
client-supplied Authorization value is left unchanged; the Host header,
the request Host field, and the URL authority are always rewritten to the
vendor's host. -/
theorem modifyProxyRequest_spec (conf : VendorConf)
    (validKeys : List String) (r : Nat) (targetHost : String)
    (req : ProxyRequest) :
    ((req.authHeader = "" ∨ strContains req.authHeader "null" = true) →
      (modifyProxyRequest conf validKeys r targetHost req).authHeader =
        "Bearer " ++ GetKey conf validKeys r) ∧
    (req.authHeader ≠ "" → strContains req.authHeader "null" = false →
      (modifyProxyRequest conf validKeys r targetHost req).authHeader =
        req.authHeader) ∧
    ((modifyProxyRequest conf validKeys r targetHost req).hostHeader =
        targetHost ∧
      (modifyProxyRequest conf validKeys r targetHost req).reqHost =
        targetHost ∧
      (modifyProxyRequest conf validKeys r targetHost req).urlHost =
        targetHost) := by
  refine ⟨?_, ?_, ⟨?_, ?_, ?_⟩⟩ <;>
    simp only [modifyProxyRequest]
  · intro h
    rcases h with h | h <;> simp [h]
  · intro h1 h2
    simp [h1, h2]

/-- Witness for C6: a request with Authorization "Bearer null" gets the
vendor key; one with a real credential is forwarded untouched; both have
their host fields rewritten. -/
theorem modifyProxyRequest_spec_witness :
    (modifyProxyRequest ⟨"v", "https://h.test", false, "pk", [], ""⟩ [] 0
        "h.test" ⟨"Bearer null", "c.test", "c.test", "c.test"⟩).authHeader =
      "Bearer " ++ GetKey ⟨"v", "https://h.test", false, "pk", [], ""⟩ [] 0 ∧
    (modifyProxyRequest ⟨"v", "https://h.test", false, "pk", [], ""⟩ [] 0
        "h.test" ⟨"Bearer sk-abc", "c.test", "c.test", "c.test"⟩).authHeader =
      "Bearer sk-abc" ∧
    (modifyProxyRequest ⟨"v", "https://h.test", false, "pk", [], ""⟩ [] 0
        "h.test" ⟨"Bearer sk-abc", "c.test", "c.test", "c.test"⟩).hostHeader =
      "h.test" :=
  ⟨(modifyProxyRequest_spec ⟨"v", "https://h.test", false, "pk", [], ""⟩ [] 0
      "h.test" ⟨"Bearer null", "c.test", "c.test", "c.test"⟩).1
      (Or.inr (by decide)),
   (modifyProxyRequest_spec ⟨"v", "https://h.test", false, "pk", [], ""⟩ [] 0
      "h.test" ⟨"Bearer sk-abc", "c.test", "c.test", "c.test"⟩).2.1
      (by decide) (by decide),
   (modifyProxyRequest_spec ⟨"v", "https://h.test", false, "pk", [], ""⟩ [] 0
      "h.test" ⟨"Bearer sk-abc", "c.test", "c.test", "c.test"⟩).2.2.1⟩

/-- The compiled form of the rule pattern "^gpt-" mapping to vendor "A":
an anchored regex whose matcher holds exactly when "gpt-" is a prefix of
the model name. -/
def gptRule : CompiledRule :=
  ⟨fun s => "gpt-".toList.isPrefixOf s.toList, "A"⟩

/-- C4: `GetVendorForModel` returns the vendor of the first rule (in
iteration order) whose pattern matches the model name, and the configured
default vendor name when no rule matches; in particular, with exactly one
matching rule with pattern "^gpt-" and vendor "A", the model "gpt-4"
resolves to "A". -/
theorem GetVendorForModel_spec (defaultVendor modelName : String) :
    (∀ rules : List CompiledRule,
      (∀ r ∈ rules, r.regexMatch modelName = false) →
      GetVendorForModel rules defaultVendor modelName = defaultVendor) ∧
    (∀ (pre post : List CompiledRule) (r : CompiledRule),
      (∀ r2 ∈ pre, r2.regexMatch modelName = false) →
      r.regexMatch modelName = true →
      GetVendorForModel (pre ++ r :: post) defaultVendor modelName =
        r.vendor) ∧
    GetVendorForModel [gptRule] "D" "gpt-4" = "A" := by
  refine ⟨?_, ?_, ?_⟩
  · intro rules hnone
    induction rules with
    | nil => rfl
    | cons r rest ih =>
      have hr := hnone r (List.mem_cons_self r rest)
      rw [GetVendorForModel, if_neg (by simp [hr])]
      exact ih fun r2 h2 => hnone r2 (List.mem_cons_of_mem r h2)
  · intro pre post r hpre hr
    induction pre with
    | nil =>
      rw [List.nil_append, GetVendorForModel, if_pos hr]
    | cons r2 rest ih =>
      have h2 := hpre r2 (List.mem_cons_self r2 rest)
      rw [List.cons_append, GetVendorForModel, if_neg (by simp [h2])]
      exact ih fun r3 h3 => hpre r3 (List.mem_cons_of_mem r2 h3)
  · rfl

/-- Witness for C4: an unmatched rule list falls through to the default
name, and the anchored gpt rule wins for "gpt-4". -/
theorem GetVendorForModel_spec_witness :
    GetVendorForModel [] "D" "claude-3" = "D" ∧
    GetVendorForModel [gptRule] "D" "gpt-4" = "A" :=
  ⟨(GetVendorForModel_spec "D" "claude-3").1 [] (by simp),
   (GetVendorForModel_spec "D" "gpt-4").2.2⟩

/-- C5: `GetVendor` and `GetProxyForVendor` resolve the empty name to the
configured default-vendor name before lookup; any name absent from the
vendor/proxy maps resolves to the default Vendor/proxy instance (total,
never an error); and when the default-vendor name is itself unconfigured,
the empty name and an unconfigured name such as "nonexistent" yield the
same proxy instance. -/
theorem manager_default_resolution {V P : Type} (m : VendorManager V P)
    (name : String) :
    (GetVendor m "" = GetVendor m m.defaultVendorName ∧
      GetProxyForVendor m "" = GetProxyForVendor m m.defaultVendorName) ∧
    (name ≠ "" → assocLookup m.vendors name = none →
      GetVendor m name = m.defaultVendor) ∧
    (name ≠ "" → assocLookup m.proxies name = none →
      GetProxyForVendor m name = m.defaultProxy) ∧
    (assocLookup m.proxies m.defaultVendorName = none →
      assocLookup m.proxies "nonexistent" = none →
      GetProxyForVendor m "" = m.defaultProxy ∧
      GetProxyForVendor m "nonexistent" = m.defaultProxy) := by
  refine ⟨⟨?_, ?_⟩, ?_, ?_, ?_⟩
  · by_cases h : m.defaultVendorName = "" <;> simp [GetVendor, h]
  · by_cases h : m.defaultVendorName = "" <;> simp [GetProxyForVendor, h]
  · intro hne hnone
    simp [GetVendor, hne, hnone]
  · intro hne hnone
    simp [GetProxyForVendor, hne, hnone]
  · intro hdef hnon
    constructor
    · by_cases h : m.defaultVendorName = ""
      · simp [GetProxyForVendor, h, h ▸ hdef]
      · simp [GetProxyForVendor, hdef]
    · simp [GetProxyForVendor, hnon]

/-- Witness for C5 at a concrete manager over Nat-labelled instances with
an unconfigured default-vendor name. -/
theorem manager_default_resolution_witness :
    GetProxyForVendor
        (⟨[("a", 1)], [("a", 10)], "missing", 2, 20⟩ :
          VendorManager Nat Nat) "" = 20 ∧
    GetProxyForVendor
        (⟨[("a", 1)], [("a", 10)], "missing", 2, 20⟩ :
          VendorManager Nat Nat) "nonexistent" = 20 :=
  (manager_default_resolution
      (⟨[("a", 1)], [("a", 10)], "missing", 2, 20⟩ : VendorManager Nat Nat)
      "nonexistent").2.2.2 (by decide) (by decide)

/-- No unexpired cache entry for this vendor at instant `now` (the
condition under which `Models` proceeds to the upstream fetch). -/
def noFreshCacheHit (conf : VendorConf) (cache : ModelsCache)
    (now : Nat) : Prop :=
  ∀ item, cacheLookup cache (modelsCacheKey conf) = some item →
    item.expiresAt ≤ now

/-- The successfully parsed body of a fetch outcome, when the outcome is a
200 response that decodes; `none` on every error exit. -/
def fetchSucceeds : FetchOutcome → Option ModelList
  | .response 200 (some ml) => some ml
  | _ => none

/-- The list `Models` caches and returns on a successful fetch: the parsed
response, filtered to zero-priced models for the OpenRouter dialect. -/
def fetchedList (conf : VendorConf) (ml : ModelList) : ModelList :=
  if GetVendorType conf = .openrouter then
    { ml with data := ml.data.filter zeroPriced }
  else ml

/-- Every error exit of the fetch path keeps the cache and yields an
error result. -/
theorem modelsFetch_error (conf : VendorConf) (cache : ModelsCache)
    (now : Nat) (fetch : FetchOutcome)
    (hfail : fetchSucceeds fetch = none) :
    (∃ e, Models.modelsFetch conf cache now fetch =
      ⟨.error e, cache, true⟩) := by
  match fetch with
  | .reqError => exact ⟨.reqCreation, rfl⟩
  | .transportError => exact ⟨.transport, rfl⟩
  | .readError => exact ⟨.readBody, rfl⟩
  | .response status parsed =>
    by_cases hs : status = 200
    · subst hs
      match parsed with
      | none => exact ⟨.parse, rfl⟩
      | some ml => simp [fetchSucceeds] at hfail
    · exact ⟨.badStatus status, by simp [Models.modelsFetch, hs]⟩

/-- A successful fetch returns the filtered parsed list and caches it with
a fresh expiry. -/
theorem modelsFetch_ok (conf : VendorConf) (cache : ModelsCache)
    (now : Nat) (ml : ModelList) :
    Models.modelsFetch conf cache now (.response 200 (some ml)) =
      ⟨.ok (fetchedList conf ml),
       cacheInsert cache (modelsCacheKey conf)
         ⟨fetchedList conf ml, now + hourTTL⟩,
       true⟩ := by
  rw [Models.modelsFetch]
  simp only [fetchedList]
  by_cases h : GetVendorType conf = .openrouter <;> simp [h]

/-- When no unexpired cache entry exists, `Models` is the fetch path. -/
theorem Models_eq_fetch_of_miss (conf : VendorConf) (cache : ModelsCache)
    (now : Nat) (fetch : FetchOutcome)
    (hmiss : noFreshCacheHit conf cache now) :
    Models conf cache now fetch = Models.modelsFetch conf cache now fetch := by
  rw [Models]
  split
  next item heq => rw [if_neg (Nat.not_lt.mpr (hmiss item heq))]
  next heq => rfl

/-- An unexpired cache entry is served as-is, with no fetch and no cache
change. -/
theorem Models_hit (conf : VendorConf) (cache : ModelsCache) (now : Nat)
    (fetch : FetchOutcome) (item : ModelCacheItem)
    (h : cacheLookup cache (modelsCacheKey conf) = some item)
    (hf : now < item.expiresAt) :
    Models conf cache now fetch = ⟨.ok item.models, cache, false⟩ := by
  rw [Models]
  split
  next it heq =>
    rw [h] at heq
    injection heq with hh
    subst hh
    rw [if_pos hf]
  next heq =>
    rw [h] at heq
    exact (Option.some_ne_none _ heq).elim

/-- Cache lookup after a map write: the written key reads back the new
item, every other key is unchanged. -/
theorem cacheLookup_cacheInsert (c : ModelsCache) (k k2 : String)
    (item : ModelCacheItem) :
    cacheLookup (cacheInsert c k item) k2 =
      if k2 = k then some item else cacheLookup c k2 := by
  by_cases h : k2 = k
  · subst h
    simp [cacheLookup, cacheInsert]
  · rw [if_neg h]
    simp only [cacheLookup, cacheInsert]
    have hkk2 : ¬ k = k2 := fun hh => h hh.symm
    rw [List.find?_cons_of_neg _ (by simp [hkk2])]
    congr 1
    induction c with
    | nil => rfl
    | cons p rest ih =>
      by_cases hp : p.1 = k
      · rw [List.filter_cons_of_neg (by simp [hp]),
          List.find?_cons_of_neg _ (by simp [hp, hkk2]), ih]
      · rw [List.filter_cons_of_pos (by simp [hp])]
        by_cases hmatch : p.1 = k2
        · rw [List.find?_cons_of_pos _ (by simp [hmatch]),
            List.find?_cons_of_pos _ (by simp [hmatch])]
        · rw [List.find?_cons_of_neg _ (by simp [hmatch]),
            List.find?_cons_of_neg _ (by simp [hmatch]), ih]

/-- Every entry in the cache after the fetch path is an old entry or the
freshly fetched list with a one-hour expiry. -/
theorem modelsFetch_cache_entries (conf : VendorConf) (cache : ModelsCache)
    (now : Nat) (fetch : FetchOutcome) (k : String) (item : ModelCacheItem)
    (hlook : cacheLookup (Models.modelsFetch conf cache now fetch).cache k =
      some item) :
    cacheLookup cache k = some item ∨
      ((Models.modelsFetch conf cache now fetch).result = .ok item.models ∧
        item.expiresAt = now + hourTTL) := by
  match fetch with
  | .reqError => exact Or.inl hlook
  | .transportError => exact Or.inl hlook
  | .readError => exact Or.inl hlook
  | .response status parsed =>
    by_cases hs : status = 200
    · subst hs
      match parsed with
      | none => exact Or.inl hlook
      | some ml =>
        rw [modelsFetch_ok] at hlook ⊢
        rw [cacheLookup_cacheInsert] at hlook
        by_cases hk : k = modelsCacheKey conf
        · rw [if_pos hk] at hlook
          cases hlook
          exact Or.inr ⟨rfl, rfl⟩
        · rw [if_neg hk] at hlook
          exact Or.inl hlook
    · have hred : Models.modelsFetch conf cache now (.response status parsed) =
          ⟨.error (.badStatus status), cache, true⟩ := by
        simp [Models.modelsFetch, hs]
      rw [hred] at hlook ⊢
      exact Or.inl hlook

/-- C2: the model-list cache contract of `Models`. An unexpired cache
entry is returned as-is with no upstream fetch and no cache change; with
no unexpired entry, a successful fetch returns the complete parsed (and,
for OpenRouter, filtered) list and overwrites the cache entry with a
one-hour expiry, while any error exit (request creation, transport, body
read, non-200 status, JSON parse) returns an error and leaves the cache
untouched; and every entry of the resulting cache is either an entry of
the previous cache or the freshly fetched complete list. -/
theorem Models_cache_contract (conf : VendorConf) (cache : ModelsCache)
    (now : Nat) (fetch : FetchOutcome) :
    (∀ item, cacheLookup cache (modelsCacheKey conf) = some item →
      now < item.expiresAt →
      Models conf cache now fetch = ⟨.ok item.models, cache, false⟩) ∧
    (∀ ml, noFreshCacheHit conf cache now →
      fetchSucceeds fetch = some ml →
      (Models conf cache now fetch).result = .ok (fetchedList conf ml) ∧
      cacheLookup (Models conf cache now fetch).cache (modelsCacheKey conf) =
        some ⟨fetchedList conf ml, now + hourTTL⟩) ∧
    (noFreshCacheHit conf cache now → fetchSucceeds fetch = none →
      (∃ e, (Models conf cache now fetch).result = .error e) ∧
      (Models conf cache now fetch).cache = cache) ∧
    (∀ k item, cacheLookup (Models conf cache now fetch).cache k = some item →
      cacheLookup cache k = some item ∨
      ((Models conf cache now fetch).result = .ok item.models ∧
        item.expiresAt = now + hourTTL)) := by
  refine ⟨?_, ?_, ?_, ?_⟩
  · intro item hlook hfresh
    exact Models_hit conf cache now fetch item hlook hfresh
  · intro ml hmiss hok
    have hf : fetch = .response 200 (some ml) := by
      match fetch with
      | .response 200 (some l) =>
        simp [fetchSucceeds] at hok
        rw [hok]
      | .reqError | .transportError | .readError =>
        simp [fetchSucceeds] at hok
      | .response 200 none => simp [fetchSucceeds] at hok
      | .response (n + 201) parsed => simp [fetchSucceeds] at hok
    subst hf
    rw [Models_eq_fetch_of_miss conf cache now _ hmiss, modelsFetch_ok]
    exact ⟨rfl, by simp [cacheLookup, cacheInsert]⟩
  · intro hmiss hfail
    rw [Models_eq_fetch_of_miss conf cache now _ hmiss]
    obtain ⟨e, he⟩ := modelsFetch_error conf cache now fetch hfail
    rw [he]
    exact ⟨⟨e, rfl⟩, rfl⟩
  · intro k item hlook
    by_cases hhit : ∃ it, cacheLookup cache (modelsCacheKey conf) = some it ∧
        now < it.expiresAt
    · obtain ⟨it, heq, hf⟩ := hhit
      rw [Models_hit conf cache now fetch it heq hf] at hlook ⊢
      exact Or.inl hlook
    · have hmiss : noFreshCacheHit conf cache now := by
        intro it heq
        by_contra hle
        exact hhit ⟨it, heq, by omega⟩
      rw [Models_eq_fetch_of_miss conf cache now fetch hmiss] at hlook ⊢
      exact modelsFetch_cache_entries conf cache now fetch k item hlook

/-- Witness for C2: a fresh cache entry is served without fetching, and a
401 fetch on a cold cache errors and leaves the cache empty. -/
theorem Models_cache_contract_witness :
    Models ⟨"v", "https://h.test", false, "pk", [], ""⟩
        [("v:https://h.test", ⟨⟨"list", []⟩, 100⟩)] 50 .transportError =
      ⟨.ok ⟨"list", []⟩, [("v:https://h.test", ⟨⟨"list", []⟩, 100⟩)], false⟩ ∧
    (Models ⟨"v", "https://h.test", false, "pk", [], ""⟩ [] 50
        (.response 401 none)).cache = [] :=
  ⟨(Models_cache_contract ⟨"v", "https://h.test", false, "pk", [], ""⟩
      [("v:https://h.test", ⟨⟨"list", []⟩, 100⟩)] 50 .transportError).1
      ⟨⟨"list", []⟩, 100⟩ (by decide) (by decide),
   ((Models_cache_contract ⟨"v", "https://h.test", false, "pk", [], ""⟩ [] 50
      (.response 401 none)).2.2.1 (fun item h => by simp [cacheLookup] at h)
      (by decide)).2⟩

/-- C9: for an OpenRouter-dialect vendor, the list `Models` returns and
caches on a successful fetch is exactly the sublist of the upstream
response whose pricing gives a prompt unit price of zero and a completion
unit price of zero; no model with a non-zero prompt or completion price
(and no model without pricing information) appears. -/
theorem Models_openrouter_zero_price_filter (conf : VendorConf)
    (cache : ModelsCache) (now : Nat) (ml : ModelList)
    (hor : GetVendorType conf = .openrouter)
    (hmiss : noFreshCacheHit conf cache now) :
    (Models conf cache now (.response 200 (some ml))).result =
      .ok ⟨ml.object, ml.data.filter zeroPriced⟩ ∧
    cacheLookup (Models conf cache now (.response 200 (some ml))).cache
        (modelsCacheKey conf) =
      some ⟨⟨ml.object, ml.data.filter zeroPriced⟩, now + hourTTL⟩ ∧
    (∀ m, m ∈ ml.data.filter zeroPriced ↔
      m ∈ ml.data ∧ ∃ p, m.pricing = some p ∧ p.prompt = 0 ∧
        p.completion = 0) := by
  have hfl : fetchedList conf ml = ⟨ml.object, ml.data.filter zeroPriced⟩ := by
    rw [fetchedList, if_pos hor]
  refine ⟨?_, ?_, ?_⟩
  · rw [Models_eq_fetch_of_miss conf cache now _ hmiss, modelsFetch_ok, hfl]
  · rw [Models_eq_fetch_of_miss conf cache now _ hmiss, modelsFetch_ok, hfl]
    simp [cacheLookup, cacheInsert]
  · intro m
    rw [List.mem_filter]
    constructor
    · rintro ⟨hm, hz⟩
      refine ⟨hm, ?_⟩
      match hp : m.pricing with
      | none => rw [zeroPriced, hp] at hz; cases hz
      | some p =>
        rw [zeroPriced, hp] at hz
        simp only [Bool.and_eq_true, beq_iff_eq] at hz
        exact ⟨p, rfl, hz.1, hz.2⟩
    · rintro ⟨hm, p, hp, h1, h2⟩
      exact ⟨hm, by rw [zeroPriced, hp]; simp [h1, h2]⟩

/-- Witness for C9 at a concrete OpenRouter vendor: of two upstream
models, only the zero-priced one survives into the result. -/
theorem Models_openrouter_zero_price_filter_witness :
    (Models ⟨"or", "https://openrouter.ai/api", false, "pk", [], ""⟩ [] 0
        (.response 200 (some ⟨"list",
          [⟨"m-free", "model", 1, "o", "", "", some ⟨0, 0⟩⟩,
           ⟨"m-paid", "model", 1, "o", "", "", some ⟨1, 0⟩⟩]⟩))).result =
      .ok ⟨"list", [⟨"m-free", "model", 1, "o", "", "", some ⟨0, 0⟩⟩]⟩ :=
  by
    have h := (Models_openrouter_zero_price_filter
      ⟨"or", "https://openrouter.ai/api", false, "pk", [], ""⟩ [] 0
      ⟨"list",
        [⟨"m-free", "model", 1, "o", "", "", some ⟨0, 0⟩⟩,
         ⟨"m-paid", "model", 1, "o", "", "", some ⟨1, 0⟩⟩]⟩
      (by decide) (fun item hitem => by simp [cacheLookup] at hitem)).1
    rw [h]
    simp [zeroPriced]

/-- Spec-side merge with an explicit accumulator: de-duplicate `ms` by ID
into the already-merged list `acc`, first occurrence winning. -/
def dedupeInto (acc ms : List ModelObject) : List ModelObject :=
  ms.foldl
    (fun acc m =>
      if acc.any (fun m2 => m2.id == m.id) then acc else acc ++ [m])
    acc

/-- `dedupFirstById` is `dedupeInto` started from the empty merge. -/
theorem dedupFirstById_eq_dedupeInto (ms : List ModelObject) :
    dedupFirstById ms = dedupeInto [] ms := rfl

/-- The number of non-hidden vendors whose `models()` call succeeded (the
final value of the loop's `successCount`). -/
def okSuccessCount (vendors : List VendorView) : Nat :=
  vendors.countP fun vv =>
    !vv.hideModels &&
      (match vv.modelsResult with
       | .ok _ => true
       | .error _ => false)

/-- The `modelMap` membership check agrees with scanning the merged list
for the ID, given that the tracker is exactly the merged list's IDs. -/
theorem contains_map_id (acc : List ModelObject) (i : String) :
    (acc.map fun m => m.id).contains i = acc.any fun m2 => m2.id == i := by
  induction acc with
  | nil => rfl
  | cons m rest ih =>
    by_cases h : i = m.id
    · simp [h]
    · have hbeq : (i == m.id) = false := by simp [h]
      have hbeq2 : (m.id == i) = false := by
        simp only [beq_eq_false_iff_ne, ne_eq]
        exact fun hh => h hh.symm
      simp only [List.map_cons, List.contains_cons, List.any_cons, hbeq,
        hbeq2, Bool.false_or, ih]

/-- The inner merge loop, started from a state whose tracker is the IDs of
its merged list, computes `dedupeInto` and maintains that invariant. -/
theorem addModels_eq (data acc : List ModelObject) (sc : Nat) :
    addModels ⟨acc, acc.map fun m => m.id, sc⟩ data =
      ⟨dedupeInto acc data, (dedupeInto acc data).map fun m => m.id, sc⟩ := by
  induction data generalizing acc with
  | nil => rfl
  | cons m data ih =>
    simp only [addModels, List.foldl_cons, dedupeInto] at ih ⊢
    simp only [contains_map_id]
    by_cases hc : (acc.any fun m2 => m2.id == m.id) = true
    · simp only [if_pos hc]
      exact ih acc
    · simp only [if_neg hc]
      have h2 := ih (acc ++ [m])
      rw [List.map_append] at h2
      simpa using h2

/-- The per-vendor step leaves the state unchanged on a hidden vendor or
on a failed `models()` call. -/
theorem aggStep_skip (st : AggState) (vv : VendorView)
    (h : vv.hideModels = true ∨ ∃ e, vv.modelsResult = .error e) :
    aggStep st vv = st := by
  rcases h with h | ⟨e, h⟩
  · simp [aggStep, h]
  · rw [aggStep]
    by_cases hh : vv.hideModels = true
    · rw [if_pos hh]
    · rw [if_neg hh, h]

/-- Head unfolding of `visibleOkData`. -/
theorem visibleOkData_cons (vv : VendorView) (rest : List VendorView) :
    visibleOkData (vv :: rest) =
      (if vv.hideModels then []
       else
         match vv.modelsResult with
         | .ok ml => ml.data
         | .error _ => []) ++ visibleOkData rest := by
  by_cases hh : vv.hideModels = true
  · simp [visibleOkData, hh]
  · simp only [Bool.not_eq_true] at hh
    match hres : vv.modelsResult with
    | .ok ml => simp [visibleOkData, hh, hres]
    | .error e => simp [visibleOkData, hh, hres]

/-- Head unfolding of `okSuccessCount`. -/
theorem okSuccessCount_cons (vv : VendorView) (rest : List VendorView) :
    okSuccessCount (vv :: rest) =
      okSuccessCount rest +
        (if (!vv.hideModels &&
            (match vv.modelsResult with
             | .ok _ => true
             | .error _ => false)) = true
         then 1 else 0) := by
  simp [okSuccessCount, List.countP_cons]

/-- The aggregation loop, started from a tracker-consistent state,
computes the spec-side first-wins merge of the visible successful vendor
data and counts the successes. -/
theorem foldl_aggStep_eq (vendors : List VendorView)
    (acc : List ModelObject) (sc : Nat) :
    vendors.foldl aggStep ⟨acc, acc.map fun m => m.id, sc⟩ =
      ⟨dedupeInto acc (visibleOkData vendors),
       (dedupeInto acc (visibleOkData vendors)).map fun m => m.id,
       sc + okSuccessCount vendors⟩ := by
  induction vendors generalizing acc sc with
  | nil => rfl
  | cons vv rest ih =>
    rw [List.foldl_cons, visibleOkData_cons, okSuccessCount_cons]
    by_cases hh : vv.hideModels = true
    · rw [aggStep_skip _ _ (Or.inl hh), ih]
      simp [hh]
    · match hres : vv.modelsResult with
      | .error e =>
        rw [aggStep_skip _ _ (Or.inr ⟨e, hres⟩), ih]
        simp only [Bool.not_eq_true] at hh
        simp [hh, hres]
      | .ok ml =>
        have hstep : aggStep ⟨acc, acc.map fun m => m.id, sc⟩ vv =
            ⟨dedupeInto acc ml.data,
             (dedupeInto acc ml.data).map fun m => m.id, sc + 1⟩ := by
          simp [aggStep, hh, hres, addModels_eq]
        rw [hstep, ih]
        simp only [Bool.not_eq_true] at hh
        have hin : dedupeInto acc (ml.data ++ visibleOkData rest) =
            dedupeInto (dedupeInto acc ml.data) (visibleOkData rest) := by
          simp [dedupeInto, List.foldl_append]
        rw [show (if vv.hideModels = true then ([] : List ModelObject)
            else ml.data) = ml.data from by simp [hh]]
        rw [show (if (!vv.hideModels &&
              (match (Except.ok ml : Except ModelsError ModelList) with
               | .ok _ => true
               | .error _ => false)) = true
            then 1 else 0) = 1 from by simp [hh]]
        rw [hin]
        simp only [AggState.mk.injEq, and_true, true_and, eq_self_iff_true]
        omega

/-- The whole aggregation loop from the initial empty state. -/
theorem aggregateModels_eq (vendors : List VendorView) :
    aggregateModels vendors =
      ⟨dedupFirstById (visibleOkData vendors),
       (dedupFirstById (visibleOkData vendors)).map fun m => m.id,
       okSuccessCount vendors⟩ := by
  have h := foldl_aggStep_eq vendors [] 0
  simp only [List.map_nil, Nat.zero_add] at h
  rw [aggregateModels, h, dedupFirstById_eq_dedupeInto]

/-- Filtering out hidden vendors changes neither the merged data nor the
success count. -/
theorem visibleOkData_filter_hidden (vendors : List VendorView) :
    visibleOkData (vendors.filter fun vv => !vv.hideModels) =
      visibleOkData vendors := by
  induction vendors with
  | nil => rfl
  | cons vv rest ih =>
    by_cases hh : vv.hideModels = true
    · rw [List.filter_cons_of_neg (by simp [hh]), ih, visibleOkData_cons]
      simp [hh]
    · rw [List.filter_cons_of_pos (by simp [hh]), visibleOkData_cons,
        visibleOkData_cons, ih]

/-- Success counting also ignores hidden vendors. -/
theorem okSuccessCount_filter_hidden (vendors : List VendorView) :
    okSuccessCount (vendors.filter fun vv => !vv.hideModels) =
      okSuccessCount vendors := by
  induction vendors with
  | nil => rfl
  | cons vv rest ih =>
    by_cases hh : vv.hideModels = true
    · rw [List.filter_cons_of_neg (by simp [hh]), ih, okSuccessCount_cons]
      simp [hh]
    · rw [List.filter_cons_of_pos (by simp [hh]), okSuccessCount_cons,
        okSuccessCount_cons, ih]

/-- C3: the aggregated model listing skips hidden vendors entirely,
treats a vendor whose `models()` call fails as a no-op while continuing
with the rest, merges the remaining lists de-duplicating by model ID with
the first occurrence winning, counts exactly the non-hidden successful
vendors, and answers from the static fallback list precisely when no
vendor succeeded and the merged list is empty. -/
theorem modelsAggregated_spec (vendors : List VendorView)
    (rules : List ModelRule) :
    (∀ (st : AggState) (vv : VendorView),
      (vv.hideModels = true ∨ ∃ e, vv.modelsResult = .error e) →
      aggStep st vv = st) ∧
    aggregateModels vendors =
      aggregateModels (vendors.filter fun vv => !vv.hideModels) ∧
    (aggregateModels vendors).allModels =
      dedupFirstById (visibleOkData vendors) ∧
    (aggregateModels vendors).successCount = okSuccessCount vendors ∧
    (modelsAggregated vendors rules =
        .fromStatic (fallbackToStaticModels rules) ↔
      okSuccessCount vendors = 0 ∧
        dedupFirstById (visibleOkData vendors) = []) := by
  refine ⟨aggStep_skip, ?_, ?_, ?_, ?_⟩
  · rw [aggregateModels_eq, aggregateModels_eq,
      visibleOkData_filter_hidden, okSuccessCount_filter_hidden]
  · rw [aggregateModels_eq]
  · rw [aggregateModels_eq]
  · rw [modelsAggregated]
    by_cases hcond : (aggregateModels vendors).successCount = 0 ∧
        (aggregateModels vendors).allModels = []
    · rw [if_pos hcond]
      simp only [true_iff]
      rw [aggregateModels_eq] at hcond
      exact ⟨hcond.1, hcond.2⟩
    · rw [if_neg hcond]
      constructor
      · intro h
        exact absurd h (by simp)
      · intro h
        rw [aggregateModels_eq] at hcond
        exact absurd ⟨h.1, h.2⟩ hcond

/-- Witness for C3: a hidden vendor is a no-op for the loop, and a single
failing vendor sends the listing to the static fallback. -/
theorem modelsAggregated_spec_witness :
    aggStep ⟨[], [], 0⟩ ⟨true, .ok ⟨"list", []⟩⟩ = ⟨[], [], 0⟩ ∧
    modelsAggregated [⟨false, .error .transport⟩] [⟨"m1", "mrx", "", "A"⟩] =
      .fromStatic (fallbackToStaticModels [⟨"m1", "mrx", "", "A"⟩]) :=
  ⟨(modelsAggregated_spec [] []).1 ⟨[], [], 0⟩ ⟨true, .ok ⟨"list", []⟩⟩
      (Or.inl rfl),
   ((modelsAggregated_spec [⟨false, .error .transport⟩]
        [⟨"m1", "mrx", "", "A"⟩]).2.2.2.2).mpr ⟨rfl, rfl⟩⟩

/-- Association lookup after a write: the written key reads back the new
value, every other key is unchanged. -/
theorem assocLookup_assocInsert {A : Type} (l : List (String × A))
    (k k2 : String) (v : A) :
    assocLookup (assocInsert l k v) k2 =
      if k2 = k then some v else assocLookup l k2 := by
  by_cases h : k2 = k
  · subst h
    simp [assocLookup, assocInsert]
  · rw [if_neg h]
    simp only [assocLookup, assocInsert]
    have hkk2 : ¬ k = k2 := fun hh => h hh.symm
    rw [List.find?_cons_of_neg _ (by simp [hkk2])]
    congr 1
    induction l with
    | nil => rfl
    | cons p rest ih =>
      by_cases hp : p.1 = k
      · rw [List.filter_cons_of_neg (by simp [hp]),
          List.find?_cons_of_neg _ (by simp [hp, hkk2]), ih]
      · rw [List.filter_cons_of_pos (by simp [hp])]
        by_cases hmatch : p.1 = k2
        · rw [List.find?_cons_of_pos _ (by simp [hmatch]),
            List.find?_cons_of_pos _ (by simp [hmatch])]
        · rw [List.find?_cons_of_neg _ (by simp [hmatch]),
            List.find?_cons_of_neg _ (by simp [hmatch]), ih]

/-- Reduction of the initialization step when the host fails to parse:
the vendor is recorded, the proxy map is untouched. -/
theorem initializeStep_none (parseURL : String → Option String)
    (st : List (String × VendorConf) × List (String × String))
    (v : VendorConf) (hp : parseURL v.host = none) :
    initializeStep parseURL st v = (assocInsert st.1 v.name v, st.2) := by
  rw [initializeStep, hp]

/-- Reduction of the initialization step when the host parses: both maps
gain the entry. -/
theorem initializeStep_some (parseURL : String → Option String)
    (st : List (String × VendorConf) × List (String × String))
    (v : VendorConf) (u : String) (hp : parseURL v.host = some u) :
    initializeStep parseURL st v =
      (assocInsert st.1 v.name v, assocInsert st.2 v.name u) := by
  rw [initializeStep, hp]

/-- The initialization step preserves "every proxy-map key is a vendor-map
key". -/
theorem initializeStep_subset (parseURL : String → Option String)
    (st : List (String × VendorConf) × List (String × String))
    (v : VendorConf)
    (hinv : ∀ n, (assocLookup st.2 n).isSome → (assocLookup st.1 n).isSome)
    (n : String)
    (h : (assocLookup (initializeStep parseURL st v).2 n).isSome) :
    (assocLookup (initializeStep parseURL st v).1 n).isSome := by
  match hp : parseURL v.host with
  | none =>
    rw [initializeStep_none parseURL st v hp] at h ⊢
    rw [assocLookup_assocInsert]
    by_cases hn : n = v.name
    · rw [if_pos hn]
      rfl
    · rw [if_neg hn]
      exact hinv n h
  | some u =>
    rw [initializeStep_some parseURL st v u hp] at h ⊢
    rw [assocLookup_assocInsert] at h
    rw [assocLookup_assocInsert]
    by_cases hn : n = v.name
    · rw [if_pos hn]
      rfl
    · rw [if_neg hn] at h
      rw [if_neg hn]
      exact hinv n h

/-- The whole initialization fold preserves the proxy-keys-are-vendor-keys
invariant. -/
theorem initializeFold_subset (confs : List VendorConf)
    (parseURL : String → Option String)
    (st : List (String × VendorConf) × List (String × String))
    (hinv : ∀ n, (assocLookup st.2 n).isSome → (assocLookup st.1 n).isSome) :
    ∀ n, (assocLookup (confs.foldl (initializeStep parseURL) st).2 n).isSome →
      (assocLookup (confs.foldl (initializeStep parseURL) st).1 n).isSome := by
  induction confs generalizing st with
  | nil => exact hinv
  | cons v rest ih =>
    rw [List.foldl_cons]
    exact ih (initializeStep parseURL st v)
      (initializeStep_subset parseURL st v hinv)

/-- Keys not named by any remaining vendor are untouched by the fold. -/
theorem initializeFold_untouched (confs : List VendorConf)
    (parseURL : String → Option String)
    (st : List (String × VendorConf) × List (String × String))
    (n : String) (hn : n ∉ confs.map fun v => v.name) :
    assocLookup (confs.foldl (initializeStep parseURL) st).1 n =
      assocLookup st.1 n ∧
    assocLookup (confs.foldl (initializeStep parseURL) st).2 n =
      assocLookup st.2 n := by
  induction confs generalizing st with
  | nil => exact ⟨rfl, rfl⟩
  | cons v rest ih =>
    simp only [List.map_cons, List.mem_cons, not_or] at hn
    obtain ⟨hn1, hn2⟩ := hn
    rw [List.foldl_cons]
    have hstep :
        assocLookup (initializeStep parseURL st v).1 n =
          assocLookup st.1 n ∧
        assocLookup (initializeStep parseURL st v).2 n =
          assocLookup st.2 n := by
      match hp : parseURL v.host with
      | none =>
        rw [initializeStep_none parseURL st v hp]
        rw [show ((assocInsert st.1 v.name v, st.2) :
            List (String × VendorConf) × List (String × String)).1 =
          assocInsert st.1 v.name v from rfl]
        rw [assocLookup_assocInsert, if_neg hn1]
        exact ⟨rfl, rfl⟩
      | some u =>
        rw [initializeStep_some parseURL st v u hp]
        constructor
        · rw [show ((assocInsert st.1 v.name v, assocInsert st.2 v.name u) :
              List (String × VendorConf) × List (String × String)).1 =
            assocInsert st.1 v.name v from rfl]
          rw [assocLookup_assocInsert, if_neg hn1]
        · rw [show ((assocInsert st.1 v.name v, assocInsert st.2 v.name u) :
              List (String × VendorConf) × List (String × String)).2 =
            assocInsert st.2 v.name u from rfl]
          rw [assocLookup_assocInsert, if_neg hn1]
    obtain ⟨h1, h2⟩ := ih (initializeStep parseURL st v) hn2
    exact ⟨h1.trans hstep.1, h2.trans hstep.2⟩

/-- With distinct vendor names, the fold ends with each configured vendor
present in the vendor map and with a proxy-map entry exactly when its host
parses. -/
theorem initializeFold_mem (confs : List VendorConf)
    (parseURL : String → Option String) (c : VendorConf)
    (hnodup : (confs.map fun v => v.name).Nodup) (hc : c ∈ confs) :
    ∀ st, assocLookup st.2 c.name = none →
      assocLookup (confs.foldl (initializeStep parseURL) st).1 c.name =
        some c ∧
      assocLookup (confs.foldl (initializeStep parseURL) st).2 c.name =
        parseURL c.host := by
  induction confs with
  | nil => cases hc
  | cons v rest ih =>
    intro st hst
    rw [List.map_cons, List.nodup_cons] at hnodup
    rw [List.foldl_cons]
    rcases List.mem_cons.mp hc with hcv | hcrest
    · subst hcv
      have huntouched := initializeFold_untouched rest parseURL
        (initializeStep parseURL st c) c.name hnodup.1
      refine ⟨huntouched.1.trans ?_, huntouched.2.trans ?_⟩
      · match hp : parseURL c.host with
        | none =>
          rw [initializeStep_none parseURL st c hp]
          rw [show ((assocInsert st.1 c.name c, st.2) :
              List (String × VendorConf) × List (String × String)).1 =
            assocInsert st.1 c.name c from rfl]
          rw [assocLookup_assocInsert, if_pos rfl]
        | some u =>
          rw [initializeStep_some parseURL st c u hp]
          rw [show ((assocInsert st.1 c.name c,
              assocInsert st.2 c.name u) :
              List (String × VendorConf) × List (String × String)).1 =
            assocInsert st.1 c.name c from rfl]
          rw [assocLookup_assocInsert, if_pos rfl]
      · match hp : parseURL c.host with
        | none =>
          rw [initializeStep_none parseURL st c hp]
          exact hst
        | some u =>
          rw [initializeStep_some parseURL st c u hp]
          rw [show ((assocInsert st.1 c.name c,
              assocInsert st.2 c.name u) :
              List (String × VendorConf) × List (String × String)).2 =
            assocInsert st.2 c.name u from rfl]
          rw [assocLookup_assocInsert, if_pos rfl]
    · have hne : ¬ c.name = v.name := by
        intro hh
        exact hnodup.1 (hh ▸ List.mem_map_of_mem (fun v => v.name) hcrest)
      have hst2 : assocLookup (initializeStep parseURL st v).2 c.name =
          none := by
        match hp : parseURL v.host with
        | none =>
          rw [initializeStep_none parseURL st v hp]
          exact hst
        | some u =>
          rw [initializeStep_some parseURL st v u hp]
          rw [show ((assocInsert st.1 v.name v,
              assocInsert st.2 v.name u) :
              List (String × VendorConf) × List (String × String)).2 =
            assocInsert st.2 v.name u from rfl]
          rw [assocLookup_assocInsert, if_neg hne]
          exact hst
      exact ih hnodup.2 hcrest (initializeStep parseURL st v) hst2

/-- Models `url.Parse` for the hosts used in the correspondence
counterexample: Go's `url.Parse("://bad")` fails with "missing protocol
scheme", while the well-formed https hosts used alongside it parse. -/
def urlParseStub (host : String) : Option String :=
  if host = "://bad" then none else some host

/-- Counterexample to C7 as stated: at the concrete configuration with a
single vendor "a" whose host "://bad" fails to parse (so its reverse-proxy
construction fails and is skipped), initialization leaves "a" in the
vendor map with no corresponding proxy-map entry, so the vendor-map-to-
proxy-map inclusion is false. -/
theorem initializeMaps_vendor_without_proxy :
    assocLookup
        (initializeMaps [⟨"a", "://bad", false, "k", [], ""⟩]
          urlParseStub).1 "a" =
      some ⟨"a", "://bad", false, "k", [], ""⟩ ∧
    assocLookup
        (initializeMaps [⟨"a", "://bad", false, "k", [], ""⟩]
          urlParseStub).2 "a" = none ∧
    ¬ (∀ n,
        (assocLookup
          (initializeMaps [⟨"a", "://bad", false, "k", [], ""⟩]
            urlParseStub).1 n).isSome →
        (assocLookup
          (initializeMaps [⟨"a", "://bad", false, "k", [], ""⟩]
            urlParseStub).2 n).isSome) := by
  refine ⟨rfl, rfl, ?_⟩
  intro h
  have := h "a" (by rfl)
  simp [initializeMaps, initializeStep, urlParseStub, assocLookup,
    assocInsert] at this

/-- C7 (amended): after initialization, every proxy-map entry has a
vendor-map entry under the same name; and, for distinctly named vendor
configurations, each configured vendor is present in the vendor map while
its proxy-map entry exists exactly when its reverse-proxy construction
succeeded (its host parsed) — a vendor whose proxy construction failed
remains in the vendor map with no proxy-map entry. -/
theorem initializeMaps_maps_correspondence (confs : List VendorConf)
    (parseURL : String → Option String) :
    (∀ n, (assocLookup (initializeMaps confs parseURL).2 n).isSome →
      (assocLookup (initializeMaps confs parseURL).1 n).isSome) ∧
    ((confs.map fun v => v.name).Nodup →
      ∀ c ∈ confs,
        assocLookup (initializeMaps confs parseURL).1 c.name = some c ∧
        assocLookup (initializeMaps confs parseURL).2 c.name =
          parseURL c.host) := by
  constructor
  · exact initializeFold_subset confs parseURL ([], [])
      (fun n h => by simp [assocLookup] at h)
  · intro hnodup c hc
    exact initializeFold_mem confs parseURL c hnodup hc ([], []) rfl

/-- Witness for the amended C7 at a two-vendor configuration where one
host parses and the other does not. -/
theorem initializeMaps_maps_correspondence_witness :
    assocLookup
        (initializeMaps
          [⟨"a", "://bad", false, "k", [], ""⟩,
           ⟨"b", "https://b.test", false, "k", [], ""⟩]
          urlParseStub).1 "a" =
      some ⟨"a", "://bad", false, "k", [], ""⟩ ∧
    assocLookup
        (initializeMaps
          [⟨"a", "://bad", false, "k", [], ""⟩,
           ⟨"b", "https://b.test", false, "k", [], ""⟩]
          urlParseStub).2 "b" = some "https://b.test" :=
  ⟨((initializeMaps_maps_correspondence
      [⟨"a", "://bad", false, "k", [], ""⟩,
       ⟨"b", "https://b.test", false, "k", [], ""⟩]
      urlParseStub).2 (by decide)
      ⟨"a", "://bad", false, "k", [], ""⟩ (by decide)).1,
   (((initializeMaps_maps_correspondence
      [⟨"a", "://bad", false, "k", [], ""⟩,
       ⟨"b", "https://b.test", false, "k", [], ""⟩]
      urlParseStub).2 (by decide)
      ⟨"b", "https://b.test", false, "k", [], ""⟩ (by decide)).2).trans
     (by decide)⟩

end OpenAIProxy
